import Mathlib

/-!
Shallow embedding of the WeChat agent-assist server (TypeScript sources:
src/src/index.ts, src/src/services/wechatService.ts, src/src/services/aiService.ts,
and the rewritten handler iterations src/unnamed/part_001 and src/unnamed/part_002).

The POST event handler exists in two deployed strategies:
  * strategy (a) in src/src/index.ts: on timeout return the bare 'success'
    acknowledgement and deliver the late reply through sendCustomMessage;
  * strategy (b) in src/unnamed/part_002: consult a response cache first, on
    timeout return a fixed "still processing" text reply and record the late
    reply by writing it into the response cache.

The handlers are modelled as pure functions of the shared in-memory state
(the processedMsgIds dedup set with its scheduled 60 s removals, and the
responseCache Map in JavaScript insertion order), the parsed message, the
current time in ms, and the outcome of the reply-generation task: the
duration it takes and its settlement (a reply or a rejection).  Deferred
continuations (the late cache write / the custom-message call) are returned
as an explicit effect list instead of being applied to the state.
-/

namespace WeChatAssist

/-- WeChatReply from src/src/types (src/unnamed/part_000): type 'text' | 'image'. -/
inductive ReplyType where
  | text
  | image
deriving DecidableEq

/-- WeChatReply record: optional content (text) and optional mediaId (image). -/
structure WeChatReply where
  type : ReplyType
  content : Option String
  mediaId : Option String
deriving DecidableEq

/-- A parsed inbound message (the fields of WeChatReceivedMessage that the
handlers read).  Absent XML fields are modelled as the empty string, which is
exactly what the JavaScript truthiness tests on them distinguish. -/
structure WeChatMessage where
  ToUserName : String
  FromUserName : String
  MsgType : String
  Content : String
  PicUrl : String
  MsgId : String
deriving DecidableEq

/-- An entry of global.responseCache: { reply, timestamp } (part_002 line 8). -/
structure CacheEntry where
  reply : WeChatReply
  timestamp : Nat
deriving DecidableEq

/-- The process-wide shared state of the part_002 handler:
processedMsgIds (each id paired with the instant its scheduled
setTimeout removal fires, i.e. insertion time + 60000) and
responseCache in JavaScript Map insertion order, oldest first. -/
structure ServerState where
  processedMsgIds : List (String × Nat)
  responseCache : List (String × CacheEntry)
deriving DecidableEq

/-- The synchronous HTTP response of a route handler. -/
inductive HttpResponse where
  | ok (body : String)
  | xml (body : String)
  | unauthorized (body : String)
deriving DecidableEq

/-- A side effect performed by the detached background continuation after the
HTTP response has been sent. -/
inductive BgEffect where
  | cacheWrite (key : String) (reply : WeChatReply) (completedAt : Nat)
  | customMessage (toUser : String) (reply : WeChatReply)
deriving DecidableEq

/-! ## Dedup store (global.processedMsgIds with setTimeout removal) -/

/-- Membership test of the dedup Set at time `now`: an id is present when it
was added and its scheduled removal (insertion + 60000 ms) has not fired yet. -/
def dedupHas (entries : List (String × Nat)) (now : Nat) (msgId : String) : Bool :=
  entries.any (fun e => e.1 == msgId && decide (now < e.2))

/-- global.processedMsgIds.add(msgId) together with
setTimeout(() => delete msgId, 60000) (index.ts lines 76-78). -/
def markSeen (entries : List (String × Nat)) (now : Nat) (msgId : String) :
    List (String × Nat) :=
  (msgId, now + 60000) :: entries

/-! ## Response cache (global.responseCache, a JavaScript Map) -/

/-- Map.prototype.get on an insertion-ordered association list. -/
def mapGet (m : List (String × CacheEntry)) (k : String) : Option CacheEntry :=
  match m.find? (fun p => p.1 == k) with
  | some p => some p.2
  | none => none

/-- Map.prototype.set: an existing key is updated in place (its insertion
position is kept); a new key is appended at the end. -/
def mapSet (m : List (String × CacheEntry)) (k : String) (v : CacheEntry) :
    List (String × CacheEntry) :=
  if m.any (fun p => p.1 == k) then
    m.map (fun p => if p.1 == k then (k, v) else p)
  else
    m ++ [(k, v)]

/-- Map.prototype.delete. -/
def mapDelete (m : List (String × CacheEntry)) (k : String) :
    List (String × CacheEntry) :=
  m.filter (fun p => p.1 != k)

/-- responseCache.keys().next().value: the first (oldest) key. -/
def firstKey (m : List (String × CacheEntry)) : Option String :=
  m.head?.map (fun p => p.1)

/-- The cache store of part_002 lines 121-126: set the key, then if the size
exceeds 100 delete the first (oldest-inserted) key. -/
def cacheStore (m : List (String × CacheEntry)) (k : String) (v : CacheEntry) :
    List (String × CacheEntry) :=
  let m1 := mapSet m k v
  if 100 < m1.length then
    match firstKey m1 with
    | some fk => mapDelete m1 fk
    | none => m1
  else
    m1

/-- The cache lookup of part_002 lines 82-88: a hit only counts when the
entry is younger than 300000 ms (5 minutes). -/
def cacheLookup (m : List (String × CacheEntry)) (k : String) (now : Nat) :
    Option WeChatReply :=
  match mapGet m k with
  | some e => if now - e.timestamp < 300000 then some e.reply else none
  | none => none

/-- A sequence of responseCache stores applied to the initially empty Map. -/
def applyStores (ops : List (String × CacheEntry)) : List (String × CacheEntry) :=
  ops.foldl (fun m p => cacheStore m p.1 p.2) []

/-! ## Signature validation (wechatService.ts lines 16-21) -/

/-- The default JavaScript Array.prototype.sort() string comparison:
lexicographic by code unit. -/
def strLeB : List Char → List Char → Bool
  | [], _ => true
  | _ :: _, [] => false
  | a :: as, b :: bs =>
      if a.toNat < b.toNat then true
      else if b.toNat < a.toNat then false
      else strLeB as bs

/-- The sort order used by the source's [token, timestamp, nonce].sort(). -/
def strLe (a b : String) : Prop := strLeB a.data b.data = true

instance strLe.decRel : DecidableRel strLe :=
  fun a b => inferInstanceAs (Decidable (strLeB a.data b.data = true))

/-- validateSignature: sha1 of the sorted, concatenated
[token, timestamp, nonce] compared against the supplied signature.  The sha1
digest is an external primitive and enters as a parameter. -/
def validateSignature (sha1 : String → String) (token signature timestamp nonce : String) :
    Bool :=
  sha1 (String.join (List.insertionSort strLe [token, timestamp, nonce])) == signature

/-! ## XML building (wechatService.ts buildTextResponse / buildImageResponse) -/

/-- buildTextResponse: the text reply payload built by the xml2js builder. -/
def buildTextResponse (toUser fromUser : String) (createTime : Nat) (content : String) :
    String :=
  "<xml><ToUserName><![CDATA[" ++ toUser ++ "]]></ToUserName><FromUserName><![CDATA["
    ++ fromUser ++ "]]></FromUserName><CreateTime>" ++ toString createTime
    ++ "</CreateTime><MsgType><![CDATA[text]]></MsgType><Content><![CDATA["
    ++ content ++ "]]></Content></xml>"

/-- buildImageResponse: the image reply payload built by the xml2js builder. -/
def buildImageResponse (toUser fromUser : String) (createTime : Nat) (mediaId : String) :
    String :=
  "<xml><ToUserName><![CDATA[" ++ toUser ++ "]]></ToUserName><FromUserName><![CDATA["
    ++ fromUser ++ "]]></FromUserName><CreateTime>" ++ toString createTime
    ++ "</CreateTime><MsgType><![CDATA[image]]></MsgType><Image><MediaId><![CDATA["
    ++ mediaId ++ "]]></MediaId></Image></xml>"

/-- replyToXml (wechatService.ts): image XML only when the reply is image-kind
and carries a truthy (non-empty) mediaId, text XML otherwise. -/
def replyToXml (toUser fromUser : String) (createTime : Nat) (reply : WeChatReply) :
    String :=
  match reply.type, reply.mediaId with
  | ReplyType.image, some m =>
      if m == "" then buildTextResponse toUser fromUser createTime (reply.content.getD "")
      else buildImageResponse toUser fromUser createTime m
  | _, _ => buildTextResponse toUser fromUser createTime (reply.content.getD "")

/-! ## AI service (src/src/services/aiService.ts, chatWithAI) -/

/-- The fixed string returned by the chatWithAI catch branch. -/
def fallbackChatError : String :=
  "Sorry, I encountered an error communicating with the AI service."

/-- The fixed string returned when the backend answers with no choices. -/
def fallbackEmpty : String :=
  "Error: AI returned an empty response."

/-- chatWithAI: the HTTP call to the AI backend either rejects (the catch
branch) or yields a list of choice contents; the first choice is returned,
with fixed fallback strings for a failed call and for an empty answer. -/
def chatWithAI (backendOutcome : Except Unit (List String)) : String :=
  match backendOutcome with
  | Except.ok choices =>
      match choices.head? with
      | some c => c
      | none => fallbackEmpty
  | Except.error _ => fallbackChatError

/-! ## Markdown-image post-processing (wechatService.ts processMessage)

The source matches the reply text against the JavaScript regular expression
pattern of a Markdown image (an exclamation mark, a bracketed alt text, a
parenthesised URL, with the dot never crossing a line break) and, when the
WeChat media upload is unavailable, rewrites every such image into a plain
text line and strips trailing original-image URLs. -/

/-- Scan for the shortest non-line-breaking text up to a closing parenthesis:
the (.*?) capture followed by the closing paren of the pattern.  Returns the
capture and the remainder after the paren. -/
def splitParen : List Char → Option (List Char × List Char)
  | [] => none
  | c :: rest =>
      if c == '\n' then none
      else if c == ')' then some ([], rest)
      else
        match splitParen rest with
        | some (b, r) => some (c :: b, r)
        | none => none

/-- Scan for the alt-text capture up to a bracket-paren pair that is followed
by a well-formed URL capture, without crossing a line break.  Returns the alt
text, the URL and the remainder after the match. -/
def splitBrack : List Char → Option (List Char × List Char × List Char)
  | [] => none
  | [_] => none
  | a :: b :: rest =>
      if a == '\n' then none
      else if a == ']' && b == '(' then
        match splitParen rest with
        | some (bb, r) => some ([], bb, r)
        | none =>
            match splitBrack (b :: rest) with
            | some (aa, bb, r) => some (a :: aa, bb, r)
            | none => none
      else
        match splitBrack (b :: rest) with
        | some (aa, bb, r) => some (a :: aa, bb, r)
        | none => none

/-- The URL capture of the first Markdown image in the text, if any
(replyContent.match of the image pattern). -/
def firstMdUrl : List Char → Option (List Char)
  | [] => none
  | [_] => none
  | a :: b :: rest =>
      if a == '!' && b == '[' then
        match splitBrack rest with
        | some (_, bb, _) => some bb
        | none => firstMdUrl (b :: rest)
      else firstMdUrl (b :: rest)

def dropPrefixChars : List Char → List Char → Option (List Char)
  | cs, [] => some cs
  | [], _ :: _ => none
  | c :: cs, p :: ps => if c == p then dropPrefixChars cs ps else none

/-- The scheme alternative https?:// — the greedy optional s tries the long
form first. -/
def matchScheme (r2 : List Char) : Option (List Char) :=
  match dropPrefixChars r2 "https://".toList with
  | some r => some r
  | none => dropPrefixChars r2 "http://".toList

/-- The optional trailing line break of the pattern. -/
def dropLeadingNewline : List Char → List Char
  | '\n' :: r => r
  | r => r

/-- Recognise one occurrence of the original-image pattern: the marker 原图:,
optional whitespace, an http or https scheme, then the non-greedy tail (which
matches nothing) and an optional immediately following line break.  Returns
the remainder after the recognised occurrence. -/
def matchYuantu (cs : List Char) : Option (List Char) :=
  match dropPrefixChars cs "原图:".toList with
  | none => none
  | some r1 =>
      match matchScheme (r1.dropWhile (fun c => c.isWhitespace)) with
      | none => none
      | some r3 => some (dropLeadingNewline r3)

/-- The global replace of every Markdown image by the plain-text line
backslash-n 【图片】alt: url backslash-n (wechatService.ts, the branch taken
when no WeChat media id could be obtained).  One unit of fuel is spent per
scanning step; since every step strictly shortens the text, an initial fuel
equal to the text length never runs out (removeYuantuGo_fuel below proves
the corresponding insensitivity for the sibling scanner). -/
def replaceMdImagesGo : Nat → List Char → List Char
  | 0, cs => cs
  | _ + 1, [] => []
  | _ + 1, [c] => [c]
  | fuel + 1, a :: b :: rest =>
      if a == '!' && b == '[' then
        match splitBrack rest with
        | some (aa, bb, r) =>
            ('\n' :: ("【图片】".toList ++ aa ++ (": ".toList ++ bb) ++ ['\n']))
              ++ replaceMdImagesGo fuel r
        | none => a :: replaceMdImagesGo fuel (b :: rest)
      else a :: replaceMdImagesGo fuel (b :: rest)

/-- The Markdown-image replace at its canonical (always sufficient) fuel. -/
def replaceMdImages (cs : List Char) : List Char :=
  replaceMdImagesGo cs.length cs

/-- The global replace that deletes every occurrence of the original-image
pattern (wechatService.ts, the optional cleanup after the image rewrite).
One unit of fuel is spent per scanning step; every step strictly shortens
the text, so an initial fuel equal to the text length never runs out. -/
def removeYuantuGo : Nat → List Char → List Char
  | 0, cs => cs
  | _ + 1, [] => []
  | fuel + 1, c :: rest =>
      match matchYuantu (c :: rest) with
      | some r => removeYuantuGo fuel r
      | none => c :: removeYuantuGo fuel rest

/-- The original-image cleanup at its canonical (always sufficient) fuel. -/
def removeYuantu (cs : List Char) : List Char :=
  removeYuantuGo cs.length cs

structure GenEnv where
  backendOutcome : Except Unit (List String)
  uploadedMediaId : String

/-- processMessage: route by MsgType to the AI backend, then rewrite Markdown
images — either into a native WeChat image reply when a media id was
obtained, or into plain text lines — and wrap the result as a WeChatReply. -/
def processMessage (env : GenEnv) (msg : WeChatMessage) : WeChatReply :=
  let replyContent :=
    if msg.MsgType == "text" then chatWithAI env.backendOutcome
    else if msg.MsgType == "image" then chatWithAI env.backendOutcome
    else "Unsupported message type."
  match firstMdUrl replyContent.toList with
  | some _ =>
      if env.uploadedMediaId == "" then
        let c1 := String.mk (replaceMdImages replyContent.toList)
        let c2 := String.mk (removeYuantu c1.toList)
        ⟨ReplyType.text, some c2, none⟩
      else ⟨ReplyType.image, none, some env.uploadedMediaId⟩
  | none => ⟨ReplyType.text, some replyContent, none⟩

/-! ## Route handlers -/

/-- The fixed "still processing, resend shortly" text reply returned by the
part_002 handler when the deadline fires first (lines 136-139). -/
def timeoutReply : WeChatReply :=
  ⟨ReplyType.text,
   some "🔄 您的请求正在处理中...\n\n⏱ 图片生成需要较长时间\n\n💡 请在10-20秒后，重新发送相同的消息（直接复制粘贴），即可立即获取生成的图片链接！",
   none⟩

/-- JavaScript String.prototype.trim: drop whitespace from both ends. -/
def jsTrim (s : String) : String :=
  String.mk (((s.data.dropWhile (fun c => c.isWhitespace)).reverse.dropWhile
    (fun c => c.isWhitespace)).reverse)

/-- The cache key derivation of part_002 line 79: sender id, a colon, and the
trimmed request text. -/
def cacheKeyOf (msg : WeChatMessage) : String :=
  msg.FromUserName ++ ":" ++ jsTrim msg.Content

/-- The result of one POST invocation of the part_002 handler: the
synchronous HTTP response, the shared state at the moment the response is
sent, the effects the detached background continuation will perform, and
whether reply generation (processMessage) was started. -/
structure HandlerResult where
  response : HttpResponse
  finalState : ServerState
  effects : List BgEffect
  invokedGeneration : Bool
deriving DecidableEq

/-- The part_002 POST handler from the point where the message has been
parsed (authentication and body checks already passed).  `now` is the
arrival time in ms; the reply-generation task settles `genDur` ms later
with `genOutcome` (a reply, or a rejection for a thrown error).  The race
against the 30000 ms timer is decided by `genDur`; on timeout the response
is the fixed still-processing reply and the background continuation caches
the late reply (it drops rejections). -/
def handlePostV2 (st : ServerState) (msg : WeChatMessage) (now : Nat)
    (genDur : Nat) (genOutcome : Except Unit WeChatReply) : HandlerResult :=
  let cacheKey := cacheKeyOf msg
  match cacheLookup st.responseCache cacheKey now with
  | some reply =>
      ⟨HttpResponse.xml (replyToXml msg.FromUserName msg.ToUserName (now / 1000) reply),
       st, [], false⟩
  | none =>
      if msg.MsgId != "" && dedupHas st.processedMsgIds now msg.MsgId then
        ⟨HttpResponse.ok "success", st, [], false⟩
      else
        let dedup1 :=
          if msg.MsgId != "" then markSeen st.processedMsgIds now msg.MsgId
          else st.processedMsgIds
        if genDur < 30000 then
          match genOutcome with
          | Except.ok reply =>
              ⟨HttpResponse.xml
                 (replyToXml msg.FromUserName msg.ToUserName ((now + genDur) / 1000) reply),
               ⟨dedup1, cacheStore st.responseCache cacheKey ⟨reply, now + genDur⟩⟩,
               [], true⟩
          | Except.error _ =>
              ⟨HttpResponse.ok "success", ⟨dedup1, st.responseCache⟩, [], true⟩
        else
          ⟨HttpResponse.xml
             (replyToXml msg.FromUserName msg.ToUserName ((now + 30000) / 1000) timeoutReply),
           ⟨dedup1, st.responseCache⟩,
           (match genOutcome with
            | Except.ok reply => [BgEffect.cacheWrite cacheKey reply (now + genDur)]
            | Except.error _ => []),
           true⟩

/-- The result of one POST invocation of the src/src/index.ts handler, which
keeps no response cache: only the dedup set is shared. -/
structure HandlerResultV1 where
  response : HttpResponse
  processedMsgIds : List (String × Nat)
  effects : List BgEffect
  invokedGeneration : Bool
deriving DecidableEq

/-- The src/src/index.ts POST handler from the point where the message has
been parsed.  On timeout the response is the bare 'success' acknowledgement
and the aiTask continuation delivers the late reply through
sendCustomMessage (rejections fall through without a custom message). -/
def handlePostV1 (dedup : List (String × Nat)) (msg : WeChatMessage) (now : Nat)
    (genDur : Nat) (genOutcome : Except Unit WeChatReply) : HandlerResultV1 :=
  if msg.MsgId != "" && dedupHas dedup now msg.MsgId then
    ⟨HttpResponse.ok "success", dedup, [], false⟩
  else
    let dedup1 :=
      if msg.MsgId != "" then markSeen dedup now msg.MsgId else dedup
    if genDur < 30000 then
      match genOutcome with
      | Except.ok reply =>
          ⟨HttpResponse.xml
             (replyToXml msg.FromUserName msg.ToUserName ((now + genDur) / 1000) reply),
           dedup1, [], true⟩
      | Except.error _ =>
          ⟨HttpResponse.ok "success", dedup1, [], true⟩
    else
      ⟨HttpResponse.ok "success", dedup1,
       (match genOutcome with
        | Except.ok reply => [BgEffect.customMessage msg.FromUserName reply]
        | Except.error _ => []),
       true⟩

/-- The query parameters of the GET verification endpoint; an absent
parameter is the empty string (the JavaScript truthiness tests on these
parameters cannot tell the two apart). -/
structure GetQuery where
  signature : String
  timestamp : String
  nonce : String
  echostr : String
deriving DecidableEq

/-- The guard of the GET handler: all three parameters truthy and the
signature valid. -/
def getAuthOk (sha1 : String → String) (token : String) (q : GetQuery) : Bool :=
  q.signature != "" && q.timestamp != "" && q.nonce != "" &&
    validateSignature sha1 token q.signature q.timestamp q.nonce

/-- The GET verification route (index.ts lines 19-33): echo echostr on a
verified signature, reject with 401 Invalid Signature otherwise. -/
def handleGet (sha1 : String → String) (token : String) (q : GetQuery) : HttpResponse :=
  if getAuthOk sha1 token q then HttpResponse.ok q.echostr
  else HttpResponse.unauthorized "Invalid Signature"

/-- A platform-visible error response (anything that is not success-shaped). -/
def isErrorResponse : HttpResponse → Bool
  | HttpResponse.unauthorized _ => true
  | _ => false

/-- A full cache of one hundred distinct keys, used to exercise the
capacity-bound eviction on a concrete input. -/
def bigCache : List (String × CacheEntry) :=
  (List.range 100).map (fun i => (Nat.repr i, ⟨⟨ReplyType.text, some "r", none⟩, 0⟩))

/-! ## Helper lemmas -/

theorem splitParen_length {cs b r} (h : splitParen cs = some (b, r)) :
    r.length < cs.length := by
  induction cs generalizing b r with
  | nil => simp [splitParen] at h
  | cons c rest ih =>
      unfold splitParen at h
      by_cases hc : c == '\n'
      · simp [hc] at h
      · by_cases hp : c == ')'
        · rw [if_neg (by simp [hc]), if_pos hp] at h
          simp only [Option.some.injEq, Prod.mk.injEq] at h
          obtain ⟨-, h2⟩ := h
          subst h2
          simp only [List.length_cons]
          omega
        · rw [if_neg (by simp [hc]), if_neg (by simp [hp])] at h
          match hsp : splitParen rest with
          | some (b2, r2) =>
              rw [hsp] at h
              simp only [Option.some.injEq, Prod.mk.injEq] at h
              obtain ⟨-, h2⟩ := h
              subst h2
              have := ih hsp
              simp only [List.length_cons]
              omega
          | none => rw [hsp] at h; simp at h

theorem splitBrack_length {cs aa bb r} (h : splitBrack cs = some (aa, bb, r)) :
    r.length < cs.length := by
  induction cs generalizing aa bb r with
  | nil => simp [splitBrack] at h
  | cons a tail ih =>
      match tail with
      | [] => simp [splitBrack] at h
      | b :: rest =>
        unfold splitBrack at h
        by_cases ha : a == '\n'
        · simp [ha] at h
        · by_cases hab : a == ']' && b == '('
          · rw [if_neg (by simp_all), if_pos hab] at h
            match hsp : splitParen rest with
            | some (bb2, r2) =>
                rw [hsp] at h
                simp only [Option.some.injEq, Prod.mk.injEq] at h
                obtain ⟨-, -, h2⟩ := h
                subst h2
                have := splitParen_length hsp
                simp only [List.length_cons]
                omega
            | none =>
                rw [hsp] at h
                match hsb : splitBrack (b :: rest) with
                | some (aa2, bb2, r2) =>
                    rw [hsb] at h
                    simp only [Option.some.injEq, Prod.mk.injEq] at h
                    obtain ⟨-, -, h2⟩ := h
                    subst h2
                    have := ih hsb
                    simp only [List.length_cons] at this ⊢
                    omega
                | none => rw [hsb] at h; simp at h
          · rw [if_neg (by simp_all), if_neg (by simp [hab])] at h
            match hsb : splitBrack (b :: rest) with
            | some (aa2, bb2, r2) =>
                rw [hsb] at h
                simp only [Option.some.injEq, Prod.mk.injEq] at h
                obtain ⟨-, -, h2⟩ := h
                subst h2
                have := ih hsb
                simp only [List.length_cons] at this ⊢
                omega
            | none => rw [hsb] at h; simp at h

theorem dropPrefixChars_length {cs pat r : List Char}
    (h : dropPrefixChars cs pat = some r) : r.length + pat.length = cs.length := by
  induction cs generalizing pat r with
  | nil =>
      match pat with
      | [] => simp [dropPrefixChars] at h; simp [h]
      | p :: ps => simp [dropPrefixChars] at h
  | cons c cs ih =>
      match pat with
      | [] => simp [dropPrefixChars] at h; simp [h]
      | p :: ps =>
          unfold dropPrefixChars at h
          by_cases hc : c == p
          · simp [hc] at h
            have := ih h
            simp [List.length_cons]
            omega
          · simp [hc] at h

theorem dropWhileLengthLe (p : Char → Bool) (l : List Char) :
    (l.dropWhile p).length ≤ l.length := by
  induction l with
  | nil => simp [List.dropWhile]
  | cons c t ih =>
      unfold List.dropWhile
      by_cases hc : p c
      · simp only [hc]
        simp only [List.length_cons]
        omega
      · simp only [hc]
        simp

theorem dropLeadingNewline_length (r : List Char) :
    (dropLeadingNewline r).length ≤ r.length := by
  unfold dropLeadingNewline
  split
  · simp only [List.length_cons]; omega
  · omega

theorem matchScheme_length {r2 r3 : List Char} (h : matchScheme r2 = some r3) :
    r3.length ≤ r2.length := by
  unfold matchScheme at h
  match h4 : dropPrefixChars r2 "https://".toList with
  | some rr =>
      rw [h4] at h
      simp only [Option.some.injEq] at h
      subst h
      have := dropPrefixChars_length h4
      omega
  | none =>
      rw [h4] at h
      have := dropPrefixChars_length h
      omega

theorem matchYuantu_length {cs r : List Char} (h : matchYuantu cs = some r) :
    r.length < cs.length := by
  unfold matchYuantu at h
  split at h
  · simp at h
  · rename_i r1 h1
    split at h
    · simp at h
    · rename_i r3 h3
      simp only [Option.some.injEq] at h
      subst h
      have hl1 : r1.length + 3 = cs.length := by
        have := dropPrefixChars_length h1
        simpa using this
      have hl2 : (r1.dropWhile (fun c => c.isWhitespace)).length ≤ r1.length :=
        dropWhileLengthLe _ _
      have hl3 := matchScheme_length h3
      have hl4 := dropLeadingNewline_length r3
      omega

theorem bool_eq_false {b : Bool} (h : ¬ b = true) : b = false := by
  cases b
  · rfl
  · exact absurd rfl h

theorem anyKey_false_forall (m : List (String × CacheEntry)) (k : String)
    (h : m.any (fun p => p.1 == k) = false) : ∀ p ∈ m, p.1 ≠ k := by
  intro p hp hk
  have hx : m.any (fun q => q.1 == k) = true :=
    List.any_eq_true.mpr ⟨p, hp, by simp [hk]⟩
  rw [h] at hx
  exact absurd hx (by simp)

theorem mapSet_append (m : List (String × CacheEntry)) (k : String) (v : CacheEntry)
    (h : m.any (fun p => p.1 == k) = false) : mapSet m k v = m ++ [(k, v)] := by
  unfold mapSet
  rw [if_neg (by simp [h])]

theorem keys_mapSet_update (m : List (String × CacheEntry)) (k : String) (v : CacheEntry)
    (h : m.any (fun p => p.1 == k) = true) :
    (mapSet m k v).map Prod.fst = m.map Prod.fst := by
  unfold mapSet
  rw [if_pos h, List.map_map]
  apply List.map_congr_left
  intro p _
  by_cases hp : p.1 == k
  · simp only [Function.comp_apply, hp, if_pos]
    exact (eq_of_beq hp).symm
  · simp only [Function.comp_apply, hp]
    simp

theorem nodup_keys_mapSet (m : List (String × CacheEntry)) (k : String) (v : CacheEntry)
    (hnd : (m.map Prod.fst).Nodup) : ((mapSet m k v).map Prod.fst).Nodup := by
  by_cases h : m.any (fun p => p.1 == k)
  · rwa [keys_mapSet_update m k v h]
  · rw [mapSet_append m k v (bool_eq_false h)]
    rw [List.map_append]
    rw [List.nodup_append]
    refine ⟨hnd, by simp, ?_⟩
    intro a ha hb
    simp only [List.map_cons, List.map_nil, List.mem_singleton] at hb
    rw [hb] at ha
    obtain ⟨p, hp, hpk⟩ := List.mem_map.mp ha
    exact anyKey_false_forall m k (bool_eq_false h) p hp hpk

theorem length_mapSet_le (m : List (String × CacheEntry)) (k : String) (v : CacheEntry) :
    (mapSet m k v).length ≤ m.length + 1 := by
  by_cases h : m.any (fun p => p.1 == k)
  · unfold mapSet
    rw [if_pos h, List.length_map]
    omega
  · rw [mapSet_append m k v (bool_eq_false h)]
    simp

theorem mapGet_mapSet (m : List (String × CacheEntry)) (k : String) (v : CacheEntry) :
    mapGet (mapSet m k v) k = some v := by
  induction m with
  | nil => simp [mapSet, mapGet, List.find?]
  | cons p t ih =>
      by_cases hp : (p.1 == k) = true
      · have hany : (p :: t).any (fun q => q.1 == k) = true := by
          simp [List.any_cons, hp]
        unfold mapSet
        rw [if_pos hany]
        simp only [List.map_cons, hp, if_pos]
        simp [mapGet, List.find?]
      · have hp' : (p.1 == k) = false := bool_eq_false hp
        by_cases ht : t.any (fun q => q.1 == k)
        · have hany : (p :: t).any (fun q => q.1 == k) = true := by
            simp [List.any_cons, ht]
          have ihm : mapGet (t.map (fun q => if q.1 == k then (k, v) else q)) k = some v := by
            have h2 := ih
            unfold mapSet at h2
            rwa [if_pos ht] at h2
          unfold mapSet
          rw [if_pos hany]
          have hmap : (p :: t).map (fun q => if q.1 == k then (k, v) else q)
              = p :: t.map (fun q => if q.1 == k then (k, v) else q) := by
            simp only [List.map_cons]
            rw [if_neg hp]
          rw [hmap]
          unfold mapGet at ihm ⊢
          simp only [List.find?_cons, hp']
          exact ihm
        · have hany : (p :: t).any (fun q => q.1 == k) = false := by
            simp only [List.any_cons, hp', Bool.false_or]
            exact bool_eq_false ht
          rw [mapSet_append (p :: t) k v hany]
          have ihm : mapGet (t ++ [(k, v)]) k = some v := by
            have h2 := ih
            rwa [mapSet_append t k v (bool_eq_false ht)] at h2
          unfold mapGet at ihm ⊢
          rw [List.cons_append]
          simp only [List.find?_cons, hp']
          exact ihm

theorem find?_filter_other (m : List (String × CacheEntry)) (k fk : String)
    (hne : fk ≠ k) :
    (m.filter (fun p => p.1 != fk)).find? (fun p => p.1 == k) =
      m.find? (fun p => p.1 == k) := by
  induction m with
  | nil => rfl
  | cons p t ih =>
      by_cases hp : (p.1 == k) = true
      · have hpf : (p.1 != fk) = true := by
          have hk : p.1 = k := eq_of_beq hp
          simp only [bne_iff_ne, ne_eq, hk]
          exact fun hh => hne hh.symm
        rw [List.filter_cons, if_pos hpf]
        simp only [List.find?_cons, hp]
      · have hp' : (p.1 == k) = false := bool_eq_false hp
        rw [List.filter_cons]
        by_cases hpf : (p.1 != fk) = true
        · rw [if_pos hpf]
          simp only [List.find?_cons, hp']
          exact ih
        · rw [if_neg hpf]
          rw [ih]
          simp only [List.find?_cons, hp']

theorem evict_shape (m1 : List (String × CacheEntry))
    (hnd : (m1.map Prod.fst).Nodup) (hlen : 0 < m1.length) :
    ∃ hd tl, m1 = hd :: tl ∧
      (match firstKey m1 with
       | some fk => mapDelete m1 fk
       | none => m1) = tl := by
  match m1 with
  | [] => simp at hlen
  | hd :: tl =>
      refine ⟨hd, tl, rfl, ?_⟩
      show mapDelete (hd :: tl) hd.1 = tl
      unfold mapDelete
      rw [List.filter_cons, if_neg (by simp)]
      apply List.filter_eq_self.mpr
      intro p hp
      simp only [List.map_cons, List.nodup_cons] at hnd
      have hmem : hd.1 ∉ tl.map Prod.fst := hnd.1
      simp only [bne_iff_ne, ne_eq]
      intro hcontra
      exact hmem (hcontra ▸ List.mem_map_of_mem Prod.fst hp)

theorem cacheStore_overflow (m : List (String × CacheEntry)) (k : String) (v : CacheEntry)
    (hnd : (m.map Prod.fst).Nodup)
    (hov : 100 < (mapSet m k v).length) :
    ∃ hd tl, mapSet m k v = hd :: tl ∧ cacheStore m k v = tl := by
  obtain ⟨hd, tl, he, hs⟩ := evict_shape (mapSet m k v) (nodup_keys_mapSet m k v hnd) (by omega)
  refine ⟨hd, tl, he, ?_⟩
  unfold cacheStore
  simp only []
  rw [if_pos hov]
  exact hs

theorem cacheStore_length (m : List (String × CacheEntry)) (k : String) (v : CacheEntry)
    (hnd : (m.map Prod.fst).Nodup) (hcap : m.length ≤ 100) :
    (cacheStore m k v).length ≤ 100 := by
  by_cases hov : 100 < (mapSet m k v).length
  · obtain ⟨hd, tl, he, hs⟩ := cacheStore_overflow m k v hnd hov
    rw [hs]
    have h1 : (mapSet m k v).length ≤ m.length + 1 := length_mapSet_le m k v
    have h2 : (mapSet m k v).length = tl.length + 1 := by rw [he]; simp
    omega
  · unfold cacheStore
    simp only []
    rw [if_neg hov]
    omega

theorem cacheStore_nodup (m : List (String × CacheEntry)) (k : String) (v : CacheEntry)
    (hnd : (m.map Prod.fst).Nodup) :
    ((cacheStore m k v).map Prod.fst).Nodup := by
  by_cases hov : 100 < (mapSet m k v).length
  · obtain ⟨hd, tl, he, hs⟩ := cacheStore_overflow m k v hnd hov
    rw [hs]
    have h1 := nodup_keys_mapSet m k v hnd
    rw [he] at h1
    simp only [List.map_cons, List.nodup_cons] at h1
    exact h1.2
  · unfold cacheStore
    simp only []
    rw [if_neg hov]
    exact nodup_keys_mapSet m k v hnd

theorem mapGet_cacheStore (m : List (String × CacheEntry)) (k : String) (v : CacheEntry)
    (hnd : (m.map Prod.fst).Nodup) (hcap : m.length ≤ 100) :
    mapGet (cacheStore m k v) k = some v := by
  by_cases hov : 100 < (mapSet m k v).length
  · -- an eviction fired: the stored key must have been fresh, so the evicted
    -- first entry carries a different key and the new entry survives
    have hfresh : m.any (fun p => p.1 == k) = false := by
      by_contra hc
      have hc' : m.any (fun p => p.1 == k) = true := by
        revert hc
        cases m.any (fun p => p.1 == k) <;> simp
      have hlen : (mapSet m k v).length = m.length := by
        unfold mapSet
        rw [if_pos hc', List.length_map]
      omega
    obtain ⟨hd, tl, he, hs⟩ := cacheStore_overflow m k v hnd hov
    have happ : mapSet m k v = m ++ [(k, v)] := mapSet_append m k v hfresh
    have hm_ne : m ≠ [] := by
      intro hnil
      subst hnil
      rw [happ] at hov
      simp at hov
    have hhd_mem : hd ∈ m := by
      match m, hm_ne with
      | q :: t, _ =>
          have hq : q :: (t ++ [(k, v)]) = hd :: tl := by
            rw [← he, happ, List.cons_append]
          simp only [List.cons.injEq] at hq
          rw [← hq.1]
          exact List.mem_cons_self q t
    have hhd_ne : hd.1 ≠ k := anyKey_false_forall m k hfresh hd hhd_mem
    unfold cacheStore
    simp only []
    rw [if_pos hov]
    have hfk : firstKey (mapSet m k v) = some hd.1 := by rw [he]; simp [firstKey]
    rw [hfk]
    show mapGet (mapDelete (mapSet m k v) hd.1) k = some v
    unfold mapDelete mapGet
    rw [find?_filter_other (mapSet m k v) k hd.1 hhd_ne]
    have hg := mapGet_mapSet m k v
    unfold mapGet at hg
    exact hg
  · unfold cacheStore
    simp only []
    rw [if_neg hov]
    exact mapGet_mapSet m k v

theorem applyStores_wf (ops : List (String × CacheEntry)) :
    ((applyStores ops).map Prod.fst).Nodup ∧ (applyStores ops).length ≤ 100 := by
  unfold applyStores
  suffices h : ∀ m : List (String × CacheEntry), (m.map Prod.fst).Nodup → m.length ≤ 100 →
      ((ops.foldl (fun acc p => cacheStore acc p.1 p.2) m).map Prod.fst).Nodup ∧
        (ops.foldl (fun acc p => cacheStore acc p.1 p.2) m).length ≤ 100 by
    exact h [] (by simp) (by simp)
  induction ops with
  | nil => intro m hnd hcap; exact ⟨hnd, hcap⟩
  | cons p rest ih =>
      intro m hnd hcap
      simp only [List.foldl_cons]
      exact ih (cacheStore m p.1 p.2) (cacheStore_nodup m p.1 p.2 hnd)
        (cacheStore_length m p.1 p.2 hnd hcap)


/-! ## Fuel sufficiency of the scanning replacements -/

theorem removeYuantuGo_fuel : ∀ (fuel fuel2 : Nat) (cs : List Char),
    cs.length ≤ fuel → cs.length ≤ fuel2 →
    removeYuantuGo fuel cs = removeYuantuGo fuel2 cs := by
  intro fuel
  induction fuel with
  | zero =>
      intro fuel2 cs h h2
      have hnil : cs = [] := List.eq_nil_of_length_eq_zero (Nat.le_zero.mp h)
      subst hnil
      cases fuel2 <;> rfl
  | succ f ih =>
      intro fuel2 cs h h2
      match cs with
      | [] => cases fuel2 <;> rfl
      | c :: rest =>
          match fuel2 with
          | 0 => simp at h2
          | f2 + 1 =>
              show removeYuantuGo (f + 1) (c :: rest) = removeYuantuGo (f2 + 1) (c :: rest)
              unfold removeYuantuGo
              match hm : matchYuantu (c :: rest) with
              | some r =>
                  simp only [hm]
                  have hl := matchYuantu_length hm
                  simp only [List.length_cons] at hl h h2
                  exact ih f2 r (by omega) (by omega)
              | none =>
                  simp only [hm]
                  simp only [List.length_cons] at h h2
                  rw [ih f2 rest (by omega) (by omega)]

theorem replaceMdImagesGo_fuel : ∀ (fuel fuel2 : Nat) (cs : List Char),
    cs.length ≤ fuel → cs.length ≤ fuel2 →
    replaceMdImagesGo fuel cs = replaceMdImagesGo fuel2 cs := by
  intro fuel
  induction fuel with
  | zero =>
      intro fuel2 cs h h2
      have hnil : cs = [] := List.eq_nil_of_length_eq_zero (Nat.le_zero.mp h)
      subst hnil
      cases fuel2 <;> rfl
  | succ f ih =>
      intro fuel2 cs h h2
      match cs with
      | [] => cases fuel2 <;> rfl
      | [c] =>
          match fuel2 with
          | 0 => simp at h2
          | f2 + 1 => rfl
      | a :: b :: rest =>
          match fuel2 with
          | 0 => simp at h2
          | f2 + 1 =>
              show replaceMdImagesGo (f + 1) (a :: b :: rest)
                = replaceMdImagesGo (f2 + 1) (a :: b :: rest)
              unfold replaceMdImagesGo
              by_cases hab : (a == '!' && b == '[') = true
              · rw [if_pos hab, if_pos hab]
                match hsb : splitBrack rest with
                | some (aa, bb, r) =>
                    simp only [hsb]
                    have hl := splitBrack_length hsb
                    simp only [List.length_cons] at hl h h2
                    rw [ih f2 r (by omega) (by omega)]
                | none =>
                    simp only [hsb]
                    simp only [List.length_cons] at h h2
                    rw [ih f2 (b :: rest) (by simp only [List.length_cons]; omega)
                      (by simp only [List.length_cons]; omega)]
              · rw [if_neg hab, if_neg hab]
                simp only [List.length_cons] at h h2
                rw [ih f2 (b :: rest) (by simp only [List.length_cons]; omega)
                  (by simp only [List.length_cons]; omega)]

/-! ## Claim C8: order independence of the signature check -/

theorem strLeB_total : ∀ (as bs : List Char), strLeB as bs = true ∨ strLeB bs as = true := by
  intro as
  induction as with
  | nil => intro bs; left; rfl
  | cons a as ih =>
      intro bs
      match bs with
      | [] => right; rfl
      | b :: bs =>
          by_cases h1 : a.toNat < b.toNat
          · left; unfold strLeB; rw [if_pos h1]
          · by_cases h2 : b.toNat < a.toNat
            · right; unfold strLeB; rw [if_pos h2]
            · rcases ih bs with h | h
              · left; unfold strLeB; rw [if_neg h1, if_neg h2]; exact h
              · right; unfold strLeB; rw [if_neg h2, if_neg h1]; exact h

theorem strLeB_trans : ∀ (as bs cs : List Char), strLeB as bs = true →
    strLeB bs cs = true → strLeB as cs = true := by
  intro as
  induction as with
  | nil => intro bs cs h1 h2; rfl
  | cons a as ih =>
      intro bs cs h1 h2
      match bs with
      | [] => exact absurd h1 (by simp [strLeB])
      | b :: bs =>
          match cs with
          | [] => exact absurd h2 (by simp [strLeB])
          | c :: cs =>
              unfold strLeB at h1 h2 ⊢
              by_cases hab : a.toNat < b.toNat
              · by_cases hbc : b.toNat < c.toNat
                · rw [if_pos (by omega)]
                · by_cases hcb : c.toNat < b.toNat
                  · rw [if_neg hbc, if_pos hcb] at h2
                    exact absurd h2 (by simp)
                  · rw [if_pos (by omega)]
              · by_cases hba : b.toNat < a.toNat
                · rw [if_neg hab, if_pos hba] at h1
                  exact absurd h1 (by simp)
                · rw [if_neg hab, if_neg hba] at h1
                  by_cases hbc : b.toNat < c.toNat
                  · rw [if_pos (by omega)]
                  · by_cases hcb : c.toNat < b.toNat
                    · rw [if_neg hbc, if_pos hcb] at h2
                      exact absurd h2 (by simp)
                    · rw [if_neg hbc, if_neg hcb] at h2
                      rw [if_neg (by omega), if_neg (by omega)]
                      exact ih bs cs h1 h2

theorem charEqOfToNatEq {a b : Char} (h : a.toNat = b.toNat) : a = b :=
  Char.eq_of_val_eq (UInt32.ext h)

theorem strLeB_antisymm : ∀ (as bs : List Char), strLeB as bs = true →
    strLeB bs as = true → as = bs := by
  intro as
  induction as with
  | nil =>
      intro bs h1 h2
      match bs with
      | [] => rfl
      | b :: bs => exact absurd h2 (by simp [strLeB])
  | cons a as ih =>
      intro bs h1 h2
      match bs with
      | [] => exact absurd h1 (by simp [strLeB])
      | b :: bs =>
          unfold strLeB at h1 h2
          by_cases hab : a.toNat < b.toNat
          · rw [if_neg (by omega), if_pos hab] at h2
            exact absurd h2 (by simp)
          · by_cases hba : b.toNat < a.toNat
            · rw [if_neg hab, if_pos hba] at h1
              exact absurd h1 (by simp)
            · rw [if_neg hab, if_neg hba] at h1
              rw [if_neg hba, if_neg hab] at h2
              have heq : a = b := charEqOfToNatEq (by omega)
              rw [heq, ih bs h1 h2]

theorem strLe_total (a b : String) : strLe a b ∨ strLe b a :=
  strLeB_total a.data b.data

theorem strLe_trans (a b c : String) (h1 : strLe a b) (h2 : strLe b c) : strLe a c :=
  strLeB_trans a.data b.data c.data h1 h2

theorem strLe_antisymm (a b : String) (h1 : strLe a b) (h2 : strLe b a) : a = b := by
  have hd : a.data = b.data := strLeB_antisymm a.data b.data h1 h2
  match a, b with
  | ⟨da⟩, ⟨db⟩ => exact congrArg String.mk hd

/-- C8: the signature check is deterministic and order-independent in the
timestamp and nonce inputs: swapping the two arguments cannot change the
verdict, because token, timestamp and nonce are sorted before hashing. -/
theorem validateSignature_order_independent (sha1 : String → String)
    (token sig ts nonce : String) :
    validateSignature sha1 token sig ts nonce
      = validateSignature sha1 token sig nonce ts := by
  haveI : IsTotal String strLe := ⟨strLe_total⟩
  haveI : IsTrans String strLe := ⟨strLe_trans⟩
  haveI : IsAntisymm String strLe := ⟨strLe_antisymm⟩
  unfold validateSignature
  have hperm : List.Perm [token, ts, nonce] [token, nonce, ts] :=
    List.Perm.cons token (List.Perm.swap nonce ts [])
  have hsort : List.insertionSort strLe [token, ts, nonce]
      = List.insertionSort strLe [token, nonce, ts] :=
    List.eq_of_perm_of_sorted
      (((List.perm_insertionSort _ [token, ts, nonce]).trans hperm).trans
        (List.perm_insertionSort _ [token, nonce, ts]).symm)
      (List.sorted_insertionSort _ [token, ts, nonce])
      (List.sorted_insertionSort _ [token, nonce, ts])
  rw [hsort]

/-! ## Claim C5: cache lookups never return entries older than the TTL -/

/-- C5: a lookup at time `now` returns a reply only when the stored entry is
strictly younger than 300000 ms, and once the TTL has elapsed for the stored
entry the lookup treats it as absent. -/
theorem cacheLookup_ttl (m : List (String × CacheEntry)) (k : String) (now : Nat) :
    (∀ r, cacheLookup m k now = some r →
       ∃ e, mapGet m k = some e ∧ e.reply = r ∧ now - e.timestamp < 300000)
    ∧ (∀ e, mapGet m k = some e → 300000 ≤ now - e.timestamp →
       cacheLookup m k now = none) := by
  constructor
  · intro r hr
    unfold cacheLookup at hr
    split at hr
    · rename_i e hg
      split at hr
      · rename_i ht
        simp only [Option.some.injEq] at hr
        exact ⟨e, hg, hr, ht⟩
      · exact absurd hr (by simp)
    · exact absurd hr (by simp)
  · intro e hg ht
    unfold cacheLookup
    rw [hg]
    show (if now - e.timestamp < 300000 then some e.reply else none) = none
    rw [if_neg (by omega)]

/-- Witness for C5 at a concrete expired entry. -/
theorem cacheLookup_ttl_witness :
    mapGet [("k", ⟨⟨ReplyType.text, some "hi", none⟩, 0⟩)] "k"
        = some ⟨⟨ReplyType.text, some "hi", none⟩, 0⟩
    ∧ 300000 ≤ 300000 - 0
    ∧ cacheLookup [("k", ⟨⟨ReplyType.text, some "hi", none⟩, 0⟩)] "k" 300000 = none :=
  ⟨by decide, by decide,
   (cacheLookup_ttl [("k", ⟨⟨ReplyType.text, some "hi", none⟩, 0⟩)] "k" 300000).2
     ⟨⟨ReplyType.text, some "hi", none⟩, 0⟩ (by decide) (by decide)⟩

/-! ## Claim C7: the GET verification endpoint -/

/-- C7 counterexample: with the hash primitive instantiated to the identity,
the request (signature 12t, timestamp 1, nonce 2, echostr E) passes
authentication, yet the response echoes the echostr E and not the nonce 2:
the endpoint echoes echostr, not the nonce. -/
theorem get_echo_counterexample :
    getAuthOk (fun s => s) "t" ⟨"12t", "1", "2", "E"⟩ = true
    ∧ handleGet (fun s => s) "t" ⟨"12t", "1", "2", "E"⟩ = HttpResponse.ok "E"
    ∧ handleGet (fun s => s) "t" ⟨"12t", "1", "2", "E"⟩ ≠ HttpResponse.ok "2" := by
  refine ⟨by decide, by decide, by decide⟩

/-- C7 (amended): the response echoes the provided echostr exactly when the
three authentication parameters are present and the signature validates;
otherwise the request is rejected with 401 Invalid Signature. -/
theorem get_echoes_echostr (sha1 : String → String) (token : String) (q : GetQuery) :
    (handleGet sha1 token q = HttpResponse.ok q.echostr ↔ getAuthOk sha1 token q = true)
    ∧ (getAuthOk sha1 token q = false →
        handleGet sha1 token q = HttpResponse.unauthorized "Invalid Signature") := by
  constructor
  · constructor
    · intro h
      by_cases ha : getAuthOk sha1 token q
      · exact ha
      · unfold handleGet at h
        rw [if_neg ha] at h
        exact absurd h (by simp)
    · intro ha
      unfold handleGet
      rw [if_pos ha]
  · intro ha
    unfold handleGet
    rw [if_neg (by simp [ha])]

/-- Witness for the amended C7 at a concrete rejected request. -/
theorem get_echoes_echostr_witness :
    handleGet (fun s => s) "t" ⟨"x", "1", "2", "E"⟩
      = HttpResponse.unauthorized "Invalid Signature" :=
  (get_echoes_echostr (fun s => s) "t" ⟨"x", "1", "2", "E"⟩).2 (by decide)

/-! ## Claim C10: a response-cache hit mutates nothing -/

/-- C10: on a cache hit the handler returns the cached reply and changes
nothing: the final state is the initial state (no timestamp refresh, no
eviction, no dedup-store consultation or marking), there are no background
effects, and reply generation is never started. -/
theorem cache_hit_pure_fast_path (st : ServerState) (msg : WeChatMessage)
    (now genDur : Nat) (genOutcome : Except Unit WeChatReply) (rep : WeChatReply)
    (hhit : cacheLookup st.responseCache (cacheKeyOf msg) now = some rep) :
    handlePostV2 st msg now genDur genOutcome =
      ⟨HttpResponse.xml (replyToXml msg.FromUserName msg.ToUserName (now / 1000) rep),
       st, [], false⟩ := by
  unfold handlePostV2
  simp only [hhit]

/-- Witness for C10 at a concrete cache hit. -/
theorem cache_hit_pure_fast_path_witness :
    cacheLookup [("fromU:hello", ⟨⟨ReplyType.text, some "hi", none⟩, 0⟩)]
        (cacheKeyOf ⟨"toU", "fromU", "text", "hello", "", "MSG1"⟩) 0
      = some ⟨ReplyType.text, some "hi", none⟩
    ∧ handlePostV2 ⟨[], [("fromU:hello", ⟨⟨ReplyType.text, some "hi", none⟩, 0⟩)]⟩
        ⟨"toU", "fromU", "text", "hello", "", "MSG1"⟩ 0 5
        (Except.ok ⟨ReplyType.text, some "ai", none⟩) =
      ⟨HttpResponse.xml (replyToXml "fromU" "toU" 0 ⟨ReplyType.text, some "hi", none⟩),
       ⟨[], [("fromU:hello", ⟨⟨ReplyType.text, some "hi", none⟩, 0⟩)]⟩, [], false⟩ :=
  ⟨by decide,
   cache_hit_pure_fast_path ⟨[], [("fromU:hello", ⟨⟨ReplyType.text, some "hi", none⟩, 0⟩)]⟩
     ⟨"toU", "fromU", "text", "hello", "", "MSG1"⟩ 0 5
     (Except.ok ⟨ReplyType.text, some "ai", none⟩) ⟨ReplyType.text, some "hi", none⟩
     (by decide)⟩

/-! ## Race-path reduction of the two POST handlers -/

theorem handlePostV2_race (st : ServerState) (msg : WeChatMessage) (now genDur : Nat)
    (g : Except Unit WeChatReply)
    (hmiss : cacheLookup st.responseCache (cacheKeyOf msg) now = none)
    (hfresh : (msg.MsgId != "" && dedupHas st.processedMsgIds now msg.MsgId) = false) :
    handlePostV2 st msg now genDur g =
      (let dedup1 := if msg.MsgId != "" then markSeen st.processedMsgIds now msg.MsgId
          else st.processedMsgIds
       if genDur < 30000 then
         match g with
         | Except.ok reply =>
             ⟨HttpResponse.xml
                (replyToXml msg.FromUserName msg.ToUserName ((now + genDur) / 1000) reply),
              ⟨dedup1, cacheStore st.responseCache (cacheKeyOf msg) ⟨reply, now + genDur⟩⟩,
              [], true⟩
         | Except.error _ => ⟨HttpResponse.ok "success", ⟨dedup1, st.responseCache⟩, [], true⟩
       else
         ⟨HttpResponse.xml
            (replyToXml msg.FromUserName msg.ToUserName ((now + 30000) / 1000) timeoutReply),
          ⟨dedup1, st.responseCache⟩,
          (match g with
           | Except.ok reply => [BgEffect.cacheWrite (cacheKeyOf msg) reply (now + genDur)]
           | Except.error _ => []),
          true⟩) := by
  unfold handlePostV2
  simp only [hmiss, hfresh, Bool.false_eq_true, if_false]

theorem handlePostV1_race (dedup : List (String × Nat)) (msg : WeChatMessage)
    (now genDur : Nat) (g : Except Unit WeChatReply)
    (hfresh : (msg.MsgId != "" && dedupHas dedup now msg.MsgId) = false) :
    handlePostV1 dedup msg now genDur g =
      (let dedup1 := if msg.MsgId != "" then markSeen dedup now msg.MsgId else dedup
       if genDur < 30000 then
         match g with
         | Except.ok reply =>
             ⟨HttpResponse.xml
                (replyToXml msg.FromUserName msg.ToUserName ((now + genDur) / 1000) reply),
              dedup1, [], true⟩
         | Except.error _ => ⟨HttpResponse.ok "success", dedup1, [], true⟩
       else
         ⟨HttpResponse.ok "success", dedup1,
          (match g with
           | Except.ok reply => [BgEffect.customMessage msg.FromUserName reply]
           | Except.error _ => []),
          true⟩) := by
  unfold handlePostV1
  simp only [hfresh, Bool.false_eq_true, if_false]

/-! ## Claim C1: late completion returns the placeholder and records the
reply exactly once -/

/-- C1: when generation completes only after the 30000 ms deadline, the
synchronous response is the deterministic placeholder of the deployed
strategy (the fixed still-processing text reply under the caching strategy of
part_002, the bare success acknowledgement under the custom-message strategy
of index.ts), and the background continuation records the generated reply
exactly once through exactly one channel: one write of the
(sender, trimmed-text) key into the response cache, or one call to
sendCustomMessage. -/
theorem late_completion_placeholder_single_record
    (st : ServerState) (dedup : List (String × Nat)) (msg : WeChatMessage)
    (now genDur : Nat) (reply : WeChatReply)
    (hmiss : cacheLookup st.responseCache (cacheKeyOf msg) now = none)
    (hfresh2 : (msg.MsgId != "" && dedupHas st.processedMsgIds now msg.MsgId) = false)
    (hfresh1 : (msg.MsgId != "" && dedupHas dedup now msg.MsgId) = false)
    (hlate : 30000 < genDur) :
    ((handlePostV2 st msg now genDur (Except.ok reply)).response
        = HttpResponse.xml
            (replyToXml msg.FromUserName msg.ToUserName ((now + 30000) / 1000) timeoutReply)
      ∧ (handlePostV2 st msg now genDur (Except.ok reply)).effects
        = [BgEffect.cacheWrite (cacheKeyOf msg) reply (now + genDur)])
    ∧ ((handlePostV1 dedup msg now genDur (Except.ok reply)).response = HttpResponse.ok "success"
      ∧ (handlePostV1 dedup msg now genDur (Except.ok reply)).effects
        = [BgEffect.customMessage msg.FromUserName reply]) := by
  have hnot : ¬ genDur < 30000 := by omega
  have h2 := handlePostV2_race st msg now genDur (Except.ok reply) hmiss hfresh2
  rw [if_neg hnot] at h2
  have h1 := handlePostV1_race dedup msg now genDur (Except.ok reply) hfresh1
  rw [if_neg hnot] at h1
  exact ⟨⟨by rw [h2], by rw [h2]⟩, ⟨by rw [h1], by rw [h1]⟩⟩

/-- Witness for C1 at a concrete late completion. -/
theorem late_completion_placeholder_single_record_witness :
    ((handlePostV2 ⟨[], []⟩ ⟨"toU", "fromU", "text", "hello", "", "MSG1"⟩ 0 40000
        (Except.ok ⟨ReplyType.text, some "ai", none⟩)).response
      = HttpResponse.xml
          (replyToXml "fromU" "toU" 30 timeoutReply)
      ∧ (handlePostV2 ⟨[], []⟩ ⟨"toU", "fromU", "text", "hello", "", "MSG1"⟩ 0 40000
          (Except.ok ⟨ReplyType.text, some "ai", none⟩)).effects
        = [BgEffect.cacheWrite "fromU:hello" ⟨ReplyType.text, some "ai", none⟩ 40000])
    ∧ ((handlePostV1 [] ⟨"toU", "fromU", "text", "hello", "", "MSG1"⟩ 0 40000
        (Except.ok ⟨ReplyType.text, some "ai", none⟩)).response = HttpResponse.ok "success"
      ∧ (handlePostV1 [] ⟨"toU", "fromU", "text", "hello", "", "MSG1"⟩ 0 40000
          (Except.ok ⟨ReplyType.text, some "ai", none⟩)).effects
        = [BgEffect.customMessage "fromU" ⟨ReplyType.text, some "ai", none⟩]) :=
  late_completion_placeholder_single_record ⟨[], []⟩ []
    ⟨"toU", "fromU", "text", "hello", "", "MSG1"⟩ 0 40000
    ⟨ReplyType.text, some "ai", none⟩ (by decide) (by decide) (by decide) (by decide)

/-! ## Claim C2: duplicate MsgId within the retention window -/

/-- C2: when the same non-empty MsgId is submitted twice and the second
arrival falls inside the 60 s retention window of the first, generation is
invoked exactly once — by the first submission — and the second submission
is answered with the neutral success acknowledgement or a cached reply,
never invoking generation. -/
theorem duplicate_msgId_single_generation
    (st0 : ServerState) (c2 : List (String × CacheEntry)) (msg : WeChatMessage)
    (now1 now2 d1 d2 : Nat) (g1 g2 : Except Unit WeChatReply)
    (hid : msg.MsgId ≠ "")
    (hmiss : cacheLookup st0.responseCache (cacheKeyOf msg) now1 = none)
    (hfresh : dedupHas st0.processedMsgIds now1 msg.MsgId = false)
    (hwin : now2 < now1 + 60000) :
    (handlePostV2 st0 msg now1 d1 g1).invokedGeneration = true
    ∧ (handlePostV2 ⟨(handlePostV2 st0 msg now1 d1 g1).finalState.processedMsgIds, c2⟩
        msg now2 d2 g2).invokedGeneration = false
    ∧ ((handlePostV2 ⟨(handlePostV2 st0 msg now1 d1 g1).finalState.processedMsgIds, c2⟩
          msg now2 d2 g2).response = HttpResponse.ok "success"
       ∨ ∃ rep, cacheLookup c2 (cacheKeyOf msg) now2 = some rep
          ∧ (handlePostV2 ⟨(handlePostV2 st0 msg now1 d1 g1).finalState.processedMsgIds, c2⟩
              msg now2 d2 g2).response
            = HttpResponse.xml (replyToXml msg.FromUserName msg.ToUserName (now2 / 1000) rep)) := by
  have hb : (msg.MsgId != "") = true := by simp [hid]
  have hfresh2 : (msg.MsgId != "" && dedupHas st0.processedMsgIds now1 msg.MsgId) = false := by
    rw [hfresh, Bool.and_false]
  have h1 := handlePostV2_race st0 msg now1 d1 g1 hmiss hfresh2
  have hinv : (handlePostV2 st0 msg now1 d1 g1).invokedGeneration = true := by
    rw [h1]
    by_cases hd : d1 < 30000
    · rw [if_pos hd]
      all_goals cases g1 <;> rfl
    · rw [if_neg hd]
      all_goals rfl
  have hdedup : (handlePostV2 st0 msg now1 d1 g1).finalState.processedMsgIds
      = markSeen st0.processedMsgIds now1 msg.MsgId := by
    rw [h1]
    by_cases hd : d1 < 30000
    · rw [if_pos hd]
      all_goals cases g1 <;> simp [hb]
    · rw [if_neg hd]
      all_goals simp [hb]
  rw [hdedup]
  have hdd : dedupHas (markSeen st0.processedMsgIds now1 msg.MsgId) now2 msg.MsgId = true := by
    unfold dedupHas markSeen
    simp [List.any_cons, hwin]
  refine ⟨hinv, ?_, ?_⟩
  · cases hcl : cacheLookup c2 (cacheKeyOf msg) now2 with
    | some rep =>
        unfold handlePostV2
        simp only [hcl]
    | none =>
        unfold handlePostV2
        simp only [hcl, hb, hdd, Bool.and_self, if_true]
  · cases hcl : cacheLookup c2 (cacheKeyOf msg) now2 with
    | some rep =>
        right
        refine ⟨rep, rfl, ?_⟩
        unfold handlePostV2
        simp only [hcl]
    | none =>
        left
        unfold handlePostV2
        simp only [hcl, hb, hdd, Bool.and_self, if_true]

/-- Witness for C2 at a concrete duplicate delivery. -/
theorem duplicate_msgId_single_generation_witness :
    (handlePostV2 ⟨[], []⟩ ⟨"toU", "fromU", "text", "hello", "", "MSG1"⟩ 0 5
        (Except.ok ⟨ReplyType.text, some "ai", none⟩)).invokedGeneration = true
    ∧ (handlePostV2 ⟨(handlePostV2 ⟨[], []⟩ ⟨"toU", "fromU", "text", "hello", "", "MSG1"⟩ 0 5
          (Except.ok ⟨ReplyType.text, some "ai", none⟩)).finalState.processedMsgIds, []⟩
        ⟨"toU", "fromU", "text", "hello", "", "MSG1"⟩ 1 5
        (Except.ok ⟨ReplyType.text, some "ai2", none⟩)).invokedGeneration = false
    ∧ ((handlePostV2 ⟨(handlePostV2 ⟨[], []⟩ ⟨"toU", "fromU", "text", "hello", "", "MSG1"⟩ 0 5
           (Except.ok ⟨ReplyType.text, some "ai", none⟩)).finalState.processedMsgIds, []⟩
         ⟨"toU", "fromU", "text", "hello", "", "MSG1"⟩ 1 5
         (Except.ok ⟨ReplyType.text, some "ai2", none⟩)).response = HttpResponse.ok "success"
       ∨ ∃ rep, cacheLookup [] (cacheKeyOf ⟨"toU", "fromU", "text", "hello", "", "MSG1"⟩) 1
            = some rep
          ∧ (handlePostV2 ⟨(handlePostV2 ⟨[], []⟩ ⟨"toU", "fromU", "text", "hello", "", "MSG1"⟩ 0 5
               (Except.ok ⟨ReplyType.text, some "ai", none⟩)).finalState.processedMsgIds, []⟩
             ⟨"toU", "fromU", "text", "hello", "", "MSG1"⟩ 1 5
             (Except.ok ⟨ReplyType.text, some "ai2", none⟩)).response
            = HttpResponse.xml (replyToXml "fromU" "toU" 0 rep)) :=
  duplicate_msgId_single_generation ⟨[], []⟩ [] ⟨"toU", "fromU", "text", "hello", "", "MSG1"⟩
    0 1 5 5 (Except.ok ⟨ReplyType.text, some "ai", none⟩)
    (Except.ok ⟨ReplyType.text, some "ai2", none⟩)
    (by decide) (by decide) (by decide) (by decide)

/-! ## Claim C3: in-time completion -/

/-- C3: when generation completes strictly before the 30000 ms deadline, the
synchronous response is exactly the XML encoding of the generated reply, the
reply is stored in the response cache under the (sender, trimmed-text) key
(and immediately retrievable), and no background continuation runs — no
late cache write and no sendCustomMessage call; the index.ts deployment
likewise answers synchronously with the generated reply and runs no
background effect. -/
theorem in_time_completion_sync_reply
    (st : ServerState) (dedup : List (String × Nat)) (msg : WeChatMessage)
    (now genDur : Nat) (reply : WeChatReply)
    (hnd : (st.responseCache.map Prod.fst).Nodup) (hcap : st.responseCache.length ≤ 100)
    (hmiss : cacheLookup st.responseCache (cacheKeyOf msg) now = none)
    (hfresh2 : (msg.MsgId != "" && dedupHas st.processedMsgIds now msg.MsgId) = false)
    (hfresh1 : (msg.MsgId != "" && dedupHas dedup now msg.MsgId) = false)
    (hin : genDur < 30000) :
    (handlePostV2 st msg now genDur (Except.ok reply)).response
      = HttpResponse.xml (replyToXml msg.FromUserName msg.ToUserName ((now + genDur) / 1000) reply)
    ∧ mapGet (handlePostV2 st msg now genDur (Except.ok reply)).finalState.responseCache
        (cacheKeyOf msg) = some ⟨reply, now + genDur⟩
    ∧ cacheLookup (handlePostV2 st msg now genDur (Except.ok reply)).finalState.responseCache
        (cacheKeyOf msg) (now + genDur) = some reply
    ∧ (handlePostV2 st msg now genDur (Except.ok reply)).effects = []
    ∧ (handlePostV1 dedup msg now genDur (Except.ok reply)).response
      = HttpResponse.xml (replyToXml msg.FromUserName msg.ToUserName ((now + genDur) / 1000) reply)
    ∧ (handlePostV1 dedup msg now genDur (Except.ok reply)).effects = [] := by
  have h2 := handlePostV2_race st msg now genDur (Except.ok reply) hmiss hfresh2
  rw [if_pos hin] at h2
  have h1 := handlePostV1_race dedup msg now genDur (Except.ok reply) hfresh1
  rw [if_pos hin] at h1
  have hget : mapGet (cacheStore st.responseCache (cacheKeyOf msg) ⟨reply, now + genDur⟩)
      (cacheKeyOf msg) = some ⟨reply, now + genDur⟩ :=
    mapGet_cacheStore st.responseCache (cacheKeyOf msg) ⟨reply, now + genDur⟩ hnd hcap
  refine ⟨by rw [h2], ?_, ?_, by rw [h2], by rw [h1], by rw [h1]⟩
  · rw [h2]
    exact hget
  · rw [h2]
    show cacheLookup (cacheStore st.responseCache (cacheKeyOf msg) ⟨reply, now + genDur⟩)
        (cacheKeyOf msg) (now + genDur) = some reply
    unfold cacheLookup
    rw [hget]
    show (if (now + genDur) - (now + genDur) < 300000 then some reply else none) = some reply
    rw [if_pos (by omega)]

/-- Witness for C3 at a concrete in-time completion. -/
theorem in_time_completion_sync_reply_witness :
    (handlePostV2 ⟨[], []⟩ ⟨"toU", "fromU", "text", "hello", "", "MSG1"⟩ 0 10
        (Except.ok ⟨ReplyType.text, some "ai", none⟩)).response
      = HttpResponse.xml (replyToXml "fromU" "toU" 0 ⟨ReplyType.text, some "ai", none⟩)
    ∧ mapGet (handlePostV2 ⟨[], []⟩ ⟨"toU", "fromU", "text", "hello", "", "MSG1"⟩ 0 10
        (Except.ok ⟨ReplyType.text, some "ai", none⟩)).finalState.responseCache
        (cacheKeyOf ⟨"toU", "fromU", "text", "hello", "", "MSG1"⟩)
      = some ⟨⟨ReplyType.text, some "ai", none⟩, 10⟩
    ∧ cacheLookup (handlePostV2 ⟨[], []⟩ ⟨"toU", "fromU", "text", "hello", "", "MSG1"⟩ 0 10
        (Except.ok ⟨ReplyType.text, some "ai", none⟩)).finalState.responseCache
        (cacheKeyOf ⟨"toU", "fromU", "text", "hello", "", "MSG1"⟩) 10
      = some ⟨ReplyType.text, some "ai", none⟩
    ∧ (handlePostV2 ⟨[], []⟩ ⟨"toU", "fromU", "text", "hello", "", "MSG1"⟩ 0 10
        (Except.ok ⟨ReplyType.text, some "ai", none⟩)).effects = []
    ∧ (handlePostV1 [] ⟨"toU", "fromU", "text", "hello", "", "MSG1"⟩ 0 10
        (Except.ok ⟨ReplyType.text, some "ai", none⟩)).response
      = HttpResponse.xml (replyToXml "fromU" "toU" 0 ⟨ReplyType.text, some "ai", none⟩)
    ∧ (handlePostV1 [] ⟨"toU", "fromU", "text", "hello", "", "MSG1"⟩ 0 10
        (Except.ok ⟨ReplyType.text, some "ai", none⟩)).effects = [] :=
  in_time_completion_sync_reply ⟨[], []⟩ [] ⟨"toU", "fromU", "text", "hello", "", "MSG1"⟩
    0 10 ⟨ReplyType.text, some "ai", none⟩
    (by decide) (by decide) (by decide) (by decide) (by decide) (by decide)

/-! ## Claim C9: the dedup mark precedes generation and survives failure -/

/-- C9: the event is marked in the dedup store before generation starts and
the mark is never rolled back — for every generation outcome, including a
rejection, the final dedup store is exactly the marked one; a platform retry
of the same MsgId within the 60 s window is answered with the neutral
success acknowledgement and never triggers a second generation attempt. -/
theorem dedup_mark_persists_on_failure
    (dedup : List (String × Nat)) (msg : WeChatMessage)
    (now1 now2 d1 d2 : Nat) (g1 g2 : Except Unit WeChatReply)
    (hid : msg.MsgId ≠ "")
    (hfresh : dedupHas dedup now1 msg.MsgId = false)
    (hwin : now2 < now1 + 60000) :
    (handlePostV1 dedup msg now1 d1 g1).processedMsgIds = markSeen dedup now1 msg.MsgId
    ∧ dedupHas (handlePostV1 dedup msg now1 d1 g1).processedMsgIds now2 msg.MsgId = true
    ∧ (handlePostV1 (handlePostV1 dedup msg now1 d1 g1).processedMsgIds
        msg now2 d2 g2).response = HttpResponse.ok "success"
    ∧ (handlePostV1 (handlePostV1 dedup msg now1 d1 g1).processedMsgIds
        msg now2 d2 g2).invokedGeneration = false := by
  have hb : (msg.MsgId != "") = true := by simp [hid]
  have hfresh1 : (msg.MsgId != "" && dedupHas dedup now1 msg.MsgId) = false := by
    rw [hfresh, Bool.and_false]
  have h1 := handlePostV1_race dedup msg now1 d1 g1 hfresh1
  have hded : (handlePostV1 dedup msg now1 d1 g1).processedMsgIds
      = markSeen dedup now1 msg.MsgId := by
    rw [h1]
    by_cases hd : d1 < 30000
    · rw [if_pos hd]
      all_goals cases g1 <;> simp [hb]
    · rw [if_neg hd]
      all_goals simp [hb]
  have hdd : dedupHas (markSeen dedup now1 msg.MsgId) now2 msg.MsgId = true := by
    unfold dedupHas markSeen
    simp [List.any_cons, hwin]
  refine ⟨hded, by rw [hded]; exact hdd, ?_, ?_⟩
  · rw [hded]
    unfold handlePostV1
    simp [hb, hdd]
  · rw [hded]
    unfold handlePostV1
    simp [hb, hdd]

/-- Witness for C9 at a concrete failed generation and retried delivery. -/
theorem dedup_mark_persists_on_failure_witness :
    (handlePostV1 [] ⟨"toU", "fromU", "text", "hello", "", "MSG1"⟩ 0 10
        (Except.error ())).processedMsgIds
      = markSeen [] 0 "MSG1"
    ∧ dedupHas (handlePostV1 [] ⟨"toU", "fromU", "text", "hello", "", "MSG1"⟩ 0 10
        (Except.error ())).processedMsgIds 1 "MSG1" = true
    ∧ (handlePostV1 (handlePostV1 [] ⟨"toU", "fromU", "text", "hello", "", "MSG1"⟩ 0 10
          (Except.error ())).processedMsgIds
        ⟨"toU", "fromU", "text", "hello", "", "MSG1"⟩ 1 10
        (Except.ok ⟨ReplyType.text, some "ai", none⟩)).response = HttpResponse.ok "success"
    ∧ (handlePostV1 (handlePostV1 [] ⟨"toU", "fromU", "text", "hello", "", "MSG1"⟩ 0 10
          (Except.error ())).processedMsgIds
        ⟨"toU", "fromU", "text", "hello", "", "MSG1"⟩ 1 10
        (Except.ok ⟨ReplyType.text, some "ai", none⟩)).invokedGeneration = false :=
  dedup_mark_persists_on_failure [] ⟨"toU", "fromU", "text", "hello", "", "MSG1"⟩ 0 1 10 10
    (Except.error ()) (Except.ok ⟨ReplyType.text, some "ai", none⟩)
    (by decide) (by decide) (by decide)

/-! ## Claim C6: generation failures degrade to fallback text, never to a
platform-visible error -/

/-- C6: a failed AI backend call yields the fixed apology text, an empty
backend answer yields the fixed empty-response text, a text message whose
generation hits either failure produces a text reply carrying that fallback,
and neither POST handler ever produces a platform-visible error response for
any generation outcome — a thrown generation task is absorbed into the
success-shaped path. -/
theorem generation_failure_fallback :
    chatWithAI (Except.error ()) = fallbackChatError
    ∧ chatWithAI (Except.ok []) = fallbackEmpty
    ∧ (∀ (up : String) (msg : WeChatMessage), msg.MsgType = "text" →
        processMessage ⟨Except.error (), up⟩ msg
          = ⟨ReplyType.text, some fallbackChatError, none⟩)
    ∧ (∀ (up : String) (msg : WeChatMessage), msg.MsgType = "text" →
        processMessage ⟨Except.ok [], up⟩ msg
          = ⟨ReplyType.text, some fallbackEmpty, none⟩)
    ∧ (∀ (st : ServerState) (msg : WeChatMessage) (now d : Nat) (g : Except Unit WeChatReply),
        isErrorResponse (handlePostV2 st msg now d g).response = false)
    ∧ (∀ (dedup : List (String × Nat)) (msg : WeChatMessage) (now d : Nat)
        (g : Except Unit WeChatReply),
        isErrorResponse (handlePostV1 dedup msg now d g).response = false) := by
  have hmd1 : firstMdUrl fallbackChatError.data = none := by decide
  have hmd2 : firstMdUrl fallbackEmpty.data = none := by decide
  refine ⟨rfl, rfl, ?_, ?_, ?_, ?_⟩
  · intro up msg h
    unfold processMessage
    rw [h]
    simp [chatWithAI, hmd1]
  · intro up msg h
    unfold processMessage
    rw [h]
    simp [chatWithAI, hmd2]
  · intro st msg now d g
    cases hcl : cacheLookup st.responseCache (cacheKeyOf msg) now with
    | some rep =>
        unfold handlePostV2
        simp [hcl, isErrorResponse]
    | none =>
        by_cases hfr : (msg.MsgId != "" && dedupHas st.processedMsgIds now msg.MsgId) = true
        · unfold handlePostV2
          simp [hcl, hfr, isErrorResponse]
        · have h2 := handlePostV2_race st msg now d g hcl (bool_eq_false hfr)
          rw [h2]
          by_cases hd : d < 30000
          · rw [if_pos hd]
            all_goals cases g <;> rfl
          · rw [if_neg hd]
            all_goals rfl
  · intro dedup msg now d g
    by_cases hfr : (msg.MsgId != "" && dedupHas dedup now msg.MsgId) = true
    · unfold handlePostV1
      simp [hfr, isErrorResponse]
    · have h1 := handlePostV1_race dedup msg now d g (bool_eq_false hfr)
      rw [h1]
      by_cases hd : d < 30000
      · rw [if_pos hd]
        all_goals cases g <;> rfl
      · rw [if_neg hd]
        all_goals rfl

/-- Witness for C6 at concrete failing generations. -/
theorem generation_failure_fallback_witness :
    processMessage ⟨Except.error (), ""⟩ ⟨"toU", "fromU", "text", "hi", "", "M1"⟩
      = ⟨ReplyType.text, some fallbackChatError, none⟩
    ∧ processMessage ⟨Except.ok [], ""⟩ ⟨"toU", "fromU", "text", "hi", "", "M1"⟩
      = ⟨ReplyType.text, some fallbackEmpty, none⟩
    ∧ isErrorResponse (handlePostV2 ⟨[], []⟩ ⟨"toU", "fromU", "text", "hi", "", "M1"⟩ 0 10
        (Except.error ())).response = false :=
  ⟨generation_failure_fallback.2.2.1 "" ⟨"toU", "fromU", "text", "hi", "", "M1"⟩ rfl,
   generation_failure_fallback.2.2.2.1 "" ⟨"toU", "fromU", "text", "hi", "", "M1"⟩ rfl,
   generation_failure_fallback.2.2.2.2.1 ⟨[], []⟩ ⟨"toU", "fromU", "text", "hi", "", "M1"⟩ 0 10
     (Except.error ())⟩

/-! ## Claim C4: cache capacity bound and oldest-first eviction -/

/-- C4: after any sequence of stores starting from the empty response cache
the entry count never exceeds the capacity of 100, and whenever a store
overflows the capacity the eviction removes exactly one entry — the oldest
surviving entry by insertion order (the head of the insertion-ordered map). -/
theorem responseCache_capacity_eviction :
    (∀ ops : List (String × CacheEntry), (applyStores ops).length ≤ 100)
    ∧ (∀ (m : List (String × CacheEntry)) (k : String) (v : CacheEntry),
        (m.map Prod.fst).Nodup → m.length ≤ 100 → 100 < (mapSet m k v).length →
        ∃ hd tl, mapSet m k v = hd :: tl ∧ cacheStore m k v = tl) :=
  ⟨fun ops => (applyStores_wf ops).2,
   fun m k v hnd hcap hov => cacheStore_overflow m k v hnd hov⟩

/-- Witness for C4: one concrete store sequence, and one concrete eviction on
a full cache of one hundred distinct keys. -/
theorem responseCache_capacity_eviction_witness :
    (applyStores [("a", ⟨⟨ReplyType.text, some "r", none⟩, 0⟩)]).length ≤ 100
    ∧ ((bigCache.map Prod.fst).Nodup ∧ bigCache.length ≤ 100
        ∧ 100 < (mapSet bigCache "newkey" ⟨⟨ReplyType.text, some "r", none⟩, 0⟩).length)
    ∧ (∃ hd tl, mapSet bigCache "newkey" ⟨⟨ReplyType.text, some "r", none⟩, 0⟩ = hd :: tl
        ∧ cacheStore bigCache "newkey" ⟨⟨ReplyType.text, some "r", none⟩, 0⟩ = tl) :=
  ⟨responseCache_capacity_eviction.1 [("a", ⟨⟨ReplyType.text, some "r", none⟩, 0⟩)],
   ⟨by decide, by decide, by decide⟩,
   responseCache_capacity_eviction.2 bigCache "newkey" ⟨⟨ReplyType.text, some "r", none⟩, 0⟩
     (by decide) (by decide) (by decide)⟩

end WeChatAssist
